import Mathlib

/-!
Verification development for the SrtTranslate subtitle-translation app.

The definitions below are a shallow embedding of the TypeScript sources:

* data model (`src/types/index.ts`): subtitle entries, tasks, progress,
  history entries;
* the `DataManager` in-memory / durable dual store (`dataManager.ts`) and its
  task, progress and history mutators;
* the terminology selector `getRelevantTerms` (TermsContext);
* the prompt template builder `generateDirectPrompt` (translationPrompts);
* the `translateBatch` retry / reflection state machine and the round-robin
  `getNextApiKey` key rotation (TranslationContext);
* the batch-planning and store-update sequence of
  `TranslationControls.onStartTranslation` (the batch orchestrator).

JavaScript strings are modelled by Lean `String` (lists of characters for the
character-level operations); JavaScript numbers that are used as integers are
modelled by `Nat`; `undefined` / absent fields are modelled by `Option`.
-/

namespace SrtTranslate

/-! ### JavaScript string primitives

Character-level models of the string operations the sources use:
`trim`, `split`, `join`, `toLowerCase`, `includes` and the alphanumeric
filter of the terminology normaliser. -/

/-- Whitespace recognised by the model of JavaScript `String.prototype.trim`.
The app only ever trims over ASCII whitespace. -/
def isJsWhitespaceChar (c : Char) : Bool :=
  c = ' ' || c = '\t' || c = '\n' || c = '\r' || c = '\x0b' || c = '\x0c'

/-- Character-list version of JavaScript `trim`: drop whitespace at both ends. -/
def trimChars (s : List Char) : List Char :=
  ((s.dropWhile isJsWhitespaceChar).reverse.dropWhile isJsWhitespaceChar).reverse

/-- JavaScript `s.trim()` on a Lean `String`. -/
def jsTrim (s : String) : String :=
  String.mk (trimChars s.data)

/-- JavaScript `s.split(sep)` for a one-character separator, on character
lists.  `split` never returns an empty array: splitting the empty string
yields `[[]]`. -/
def splitChars (sep : Char) : List Char → List (List Char)
  | [] => [[]]
  | c :: cs =>
    if c = sep then
      [] :: splitChars sep cs
    else
      match splitChars sep cs with
      | [] => [[c]]
      | l :: ls => (c :: l) :: ls

/-- JavaScript `parts.join(sep)` for a one-character separator. -/
def joinChars (sep : Char) : List (List Char) → List Char
  | [] => []
  | [l] => l
  | l :: ls => l ++ sep :: joinChars sep ls

/-- JavaScript `list.join(sep)` over Lean strings with a one-character
separator. -/
def jsJoin (sep : Char) (parts : List String) : String :=
  String.mk (joinChars sep (parts.map String.data))

/-- Does `hay` start with `needle`? Helper for the `includes` model. -/
def startsWithChars : List Char → List Char → Bool
  | _, [] => true
  | [], _ :: _ => false
  | a :: as, b :: bs => a = b && startsWithChars as bs

/-- JavaScript `hay.includes(needle)`: `needle` occurs contiguously in
`hay`. -/
def includesChars (hay needle : List Char) : Bool :=
  match hay with
  | [] => needle.isEmpty
  | _ :: t => startsWithChars hay needle || includesChars t needle

/-- Model of the Unicode letter/number classes `\p{L}`, `\p{N}` used by the
terminology normaliser's regexp, restricted to the ranges the app's inputs
exercise: ASCII alphanumerics and the CJK Unified Ideographs block. -/
def isLetterOrDigitChar (c : Char) : Bool :=
  c.isAlphanum || (0x4E00 ≤ c.toNat && c.toNat ≤ 0x9FFF)

/-- `cleanText` from TermsContext: lower-case the text, then strip every
character outside `\p{L}`/`\p{N}` (see `isLetterOrDigitChar`). -/
def cleanChars (s : List Char) : List Char :=
  (s.map Char.toLower).filter isLetterOrDigitChar

/-- `parseInt` as applied to the numeric JSON keys `"1"`, `"2"`, … produced
by the prompt template; non-numeric keys give `none` (in JS, `NaN`, which
makes every subsequent array access yield `undefined`). -/
def jsParseIntNat (s : String) : Option Nat :=
  if s.data.isEmpty then none
  else if s.data.all Char.isDigit then
    some (s.data.foldl (fun n c => n * 10 + (c.toNat - ('0').toNat)) 0)
  else none

/-- JavaScript `a || b` on numbers used as totals/counters: `0` is falsy. -/
def jsOrNat (a b : Nat) : Nat :=
  if a = 0 then b else a

/-- JavaScript `a || b` where `a` is a possibly-absent string field:
an absent or empty string falls through to `b`. -/
def jsOrOptStr (a b : Option String) : Option String :=
  match a with
  | some s => if s = "" then b else some s
  | none => b

/-- Truthiness of a possibly-absent string field. -/
def truthyStr : Option String → Bool
  | some s => !(s == "")
  | none => false

/-! ### Data model (`src/types/index.ts`) -/

/-- `SubtitleEntry`. -/
structure SubtitleEntry where
  id : Nat
  startTime : String
  endTime : String
  text : String
  translatedText : Option String
deriving DecidableEq

/-- `translation_progress.status` values. -/
inductive TaskStatus where
  | idle
  | translating
  | completed
deriving DecidableEq

/-- The `translation_progress` record of a `SingleTask`. -/
structure TranslationProgressRec where
  completed : Nat
  total : Nat
  tokens : Nat
  status : TaskStatus
deriving DecidableEq

/-- `SingleTask` (one entry of the `batch_tasks` list). -/
structure SingleTask where
  taskId : String
  subtitle_entries : List SubtitleEntry
  subtitle_filename : String
  translation_progress : TranslationProgressRec
  index : Nat
deriving DecidableEq

/-- `Term`: one terminology pair. -/
structure Term where
  original : String
  translation : String
deriving DecidableEq

/-- The `current_translation_task` snapshot stored inside a history entry. -/
structure CurrentTaskSnapshot where
  taskId : String
  subtitle_entries : List SubtitleEntry
  subtitle_filename : String
  translation_progress : TranslationProgressRec
deriving DecidableEq

/-- `TranslationHistoryEntry`. -/
structure TranslationHistoryEntry where
  taskId : String
  filename : String
  completedCount : Nat
  totalTokens : Nat
  timestamp : Nat
  current_translation_task : CurrentTaskSnapshot
deriving DecidableEq

/-- `Omit<TranslationHistoryEntry, 'timestamp'>`: the argument of
`addHistoryEntry` (the timestamp is stamped inside). -/
structure HistoryEntryInput where
  taskId : String
  filename : String
  completedCount : Nat
  totalTokens : Nat
  current_translation_task : CurrentTaskSnapshot
deriving DecidableEq

/-- `Partial<SingleTask['translation_progress']>`: the update object passed
to the progress mutators; absent fields leave the old value in place. -/
structure ProgressUpdate where
  completed : Option Nat := none
  total : Option Nat := none
  tokens : Option Nat := none
  status : Option TaskStatus := none
deriving DecidableEq

/-! ### Translated-entry predicates

`entry.translatedText && entry.translatedText.trim() !== ''` and its
complement `!entry.translatedText || !entry.translatedText.trim()`, exactly
as written in `dataManager.ts` and `TranslationControls.tsx`. -/

/-- The "already translated" test used to count completed entries. -/
def isTranslated (e : SubtitleEntry) : Bool :=
  match e.translatedText with
  | none => false
  | some s => !(s == "") && !(jsTrim s == "")

/-- The "still untranslated" filter used when building batches. -/
def isUntranslated (e : SubtitleEntry) : Bool :=
  match e.translatedText with
  | none => true
  | some s => s == "" || jsTrim s == ""

/-- Number of entries whose `translatedText` is non-empty after trimming:
the recomputation used by the entry-updating store operations. -/
def countTranslated (es : List SubtitleEntry) : Nat :=
  (es.filter isTranslated).length

/-! ### The DataManager store (`dataManager.ts`)

The `memoryStore` together with its durable (localforage) mirror.  Only the
keys the claims touch are modelled: `batch_tasks` and `translation_history`
(terms and config flow through the store untouched by the claimed
operations).  Each persisting operation copies the corresponding in-memory
list into its durable mirror, modelling `localforage.setItem`. -/

/-- `memoryStore.batch_tasks.tasks` / `translation_history` with their
durable localforage mirrors. -/
structure DMState where
  tasks : List SingleTask
  history : List TranslationHistoryEntry
  durableTasks : List SingleTask
  durableHistory : List TranslationHistoryEntry
deriving DecidableEq

/-- The store as constructed by the `DataManager` constructor. -/
def emptyDMState : DMState :=
  ⟨[], [], [], []⟩

/-- Spread-merge `{ ...task.translation_progress, ...updates }`. -/
def applyProgressUpdate (p : TranslationProgressRec) (u : ProgressUpdate) :
    TranslationProgressRec :=
  { completed := u.completed.getD p.completed
    total := u.total.getD p.total
    tokens := u.tokens.getD p.tokens
    status := u.status.getD p.status }

/-- Replace the first task whose `taskId` matches, as the sources do with
`findIndex` followed by an indexed assignment; when no index matches the
list is returned unchanged. -/
def replaceTask (tasks : List SingleTask) (taskId : String)
    (updatedTask : SingleTask) : List SingleTask :=
  match tasks.findIdx? (fun t => t.taskId == taskId) with
  | some i => tasks.set i updatedTask
  | none => tasks

/-- `createNewTask`: push a fresh task (progress `0 / entries.length`,
zero tokens, status `idle`) and persist the task list. -/
def createNewTask (st : DMState) (taskId filename : String)
    (entries : List SubtitleEntry) (index : Nat) : DMState :=
  let newTask : SingleTask :=
    { taskId := taskId
      subtitle_entries := entries
      subtitle_filename := filename
      translation_progress :=
        { completed := 0, total := entries.length, tokens := 0,
          status := .idle }
      index := index }
  let tasks := st.tasks ++ [newTask]
  { st with tasks := tasks, durableTasks := tasks }

/-- The single-entry update map of `updateTaskSubtitleEntry(…)`:
`entry.id === entryId` gets the new `text` and
`translatedText ?? entry.translatedText`. -/
def updateEntryList (entries : List SubtitleEntry) (entryId : Nat)
    (text : String) (translatedText : Option String) : List SubtitleEntry :=
  entries.map fun e =>
    if e.id == entryId then
      { e with text := text,
               translatedText :=
                 match translatedText with
                 | some s => some s
                 | none => e.translatedText }
    else e

/-- Rebuild the task after an entry update: recompute `completed` from the
updated entries and refresh `total` via `total || updatedEntries.length`. -/
def rebuildTaskAfterEntryUpdate (task : SingleTask)
    (updatedEntries : List SubtitleEntry) : SingleTask :=
  { task with
      subtitle_entries := updatedEntries
      translation_progress :=
        { task.translation_progress with
            completed := countTranslated updatedEntries
            total := jsOrNat task.translation_progress.total
              updatedEntries.length } }

/-- `updateTaskSubtitleEntryInMemory`: entry update and `completed`
recomputation, memory only (no persistence). Missing `taskId` is an early
return. -/
def updateTaskSubtitleEntryInMemory (st : DMState) (taskId : String)
    (entryId : Nat) (text : String) (translatedText : Option String) :
    DMState :=
  match st.tasks.find? (fun t => t.taskId == taskId) with
  | none => st
  | some task =>
    let updatedEntries := updateEntryList task.subtitle_entries entryId text
      translatedText
    let updatedTask := rebuildTaskAfterEntryUpdate task updatedEntries
    { st with tasks := replaceTask st.tasks taskId updatedTask }

/-- One element of the `updates` array of
`batchUpdateTaskSubtitleEntries`. -/
structure EntryUpdate where
  id : Nat
  text : String
  translatedText : Option String
deriving DecidableEq

/-- `batchUpdateTaskSubtitleEntries`: apply all updates in one pass over the
entries, recompute `completed` once; memory only (the source has no
`setItem` call here). -/
def batchUpdateTaskSubtitleEntries (st : DMState) (taskId : String)
    (updates : List EntryUpdate) : DMState :=
  match st.tasks.find? (fun t => t.taskId == taskId) with
  | none => st
  | some task =>
    let updatedEntries := task.subtitle_entries.map fun e =>
      match updates.find? (fun u => u.id == e.id) with
      | some u =>
        { e with text := u.text,
                 translatedText :=
                   match u.translatedText with
                   | some s => some s
                   | none => e.translatedText }
      | none => e
    let updatedTask := rebuildTaskAfterEntryUpdate task updatedEntries
    { st with tasks := replaceTask st.tasks taskId updatedTask }

/-- `updateTaskTranslationProgressInMemory`: spread-merge the update object
into `translation_progress`, memory only. -/
def updateTaskTranslationProgressInMemory (st : DMState) (taskId : String)
    (u : ProgressUpdate) : DMState :=
  match st.tasks.find? (fun t => t.taskId == taskId) with
  | none => st
  | some task =>
    let updatedTask :=
      { task with translation_progress :=
          applyProgressUpdate task.translation_progress u }
    { st with tasks := replaceTask st.tasks taskId updatedTask }

/-- `updateTaskTranslationProgress`: the same merge followed by a
persistence of the task list. -/
def updateTaskTranslationProgress (st : DMState) (taskId : String)
    (u : ProgressUpdate) : DMState :=
  let st1 := updateTaskTranslationProgressInMemory st taskId u
  match st.tasks.find? (fun t => t.taskId == taskId) with
  | none => st1
  | some _ => { st1 with durableTasks := st1.tasks }

/-- `completeTask`: recompute the completed count from the entries, keep the
larger of the stored and the supplied token totals, mark the task
`completed`, persist. Missing `taskId` is an early return. -/
def completeTask (st : DMState) (taskId : String) (finalTokens : Nat) :
    DMState :=
  match st.tasks.find? (fun t => t.taskId == taskId) with
  | none => st
  | some task =>
    let completedCount := countTranslated task.subtitle_entries
    let tokensToSave := max finalTokens task.translation_progress.tokens
    let totalEntries := task.translation_progress.total
    let updatedTask :=
      { task with translation_progress :=
          { completed := completedCount
            total := totalEntries
            tokens := tokensToSave
            status := .completed } }
    let tasks := replaceTask st.tasks taskId updatedTask
    { st with tasks := tasks, durableTasks := tasks }

/-- Stamp a history input with `Date.now()`. -/
def mkHistoryEntry (e : HistoryEntryInput) (now : Nat) :
    TranslationHistoryEntry :=
  { taskId := e.taskId
    filename := e.filename
    completedCount := e.completedCount
    totalTokens := e.totalTokens
    timestamp := now
    current_translation_task := e.current_translation_task }

/-- `addHistoryEntry`: replace the existing entry with the same `taskId` in
place when there is one, otherwise prepend; persist the history. -/
def addHistoryEntry (st : DMState) (e : HistoryEntryInput) (now : Nat) :
    DMState :=
  let newEntry := mkHistoryEntry e now
  let updatedHistory :=
    match st.history.findIdx? (fun h => h.taskId == e.taskId) with
    | some i => st.history.set i newEntry
    | none => newEntry :: st.history
  { st with history := updatedHistory, durableHistory := updatedHistory }

/-- `deleteHistoryEntry`: drop every entry with the given `taskId`,
persist. -/
def deleteHistoryEntry (st : DMState) (taskId : String) : DMState :=
  let updatedHistory := st.history.filter fun h => ¬ h.taskId == taskId
  { st with history := updatedHistory, durableHistory := updatedHistory }

/-- `clearHistory`: empty the in-memory history and remove the durable
key. -/
def clearHistory (st : DMState) : DMState :=
  { st with history := [], durableHistory := [] }

/-! ### Terminology selection (`TermsContext.getRelevantTerms`) -/

/-- `getRelevantTerms(text, contextBefore, contextAfter)` over a given terms
list: concatenate the three texts with spaces, normalise, keep the terms
whose non-empty normalised original occurs in the normalised full text, and
return them in their original `{original, translation}` shape. -/
def getRelevantTerms (terms : List Term) (text contextBefore contextAfter : String) :
    List Term :=
  if terms.length = 0 then []
  else
    let fullText := contextBefore ++ " " ++ text ++ " " ++ contextAfter
    let cleanedFullText := cleanChars fullText.data
    let processedTerms := terms.map fun t => (t, cleanChars t.original.data)
    (processedTerms.filter fun tc =>
        !tc.2.isEmpty && includesChars cleanedFullText tc.2).map
      fun tc => { original := tc.1.original, translation := tc.1.translation }

/-! ### Prompt template builder (`translationPrompts.generateDirectPrompt`)

Only the `jsonDict` construction is modelled — the claims are about the
numbered JSON template embedded in the prompt; the surrounding prose of the
prompt string does not influence any claimed behaviour. -/

/-- One value of the direct-prompt JSON template. -/
structure TemplateItem where
  origin : List Char
  direct : List Char
deriving DecidableEq

/-- The `jsonDict` built by `generateDirectPrompt`: split the input on
newlines and give line `index` the key `String(index + 1)` with
`origin` the line and `direct` empty. -/
def buildDirectTemplate (lines : List Char) : List (String × TemplateItem) :=
  let lineArray := splitChars '\n' lines
  lineArray.enum.map fun p =>
    (toString (p.1 + 1), { origin := p.2, direct := [] })

/-! ### API key rotation (`TranslationContext.getNextApiKey`) -/

/-- `apiKeyStr.split('|').map(trim).filter(length > 0)`. -/
def parseApiKeys (apiKeyStr : String) : List String :=
  (((splitChars '|' apiKeyStr.data).map trimChars).filter
    fun k => k.length > 0).map String.mk

/-- The error message thrown when no valid key is configured. -/
def noValidKeyMsg : String := "未配置有效的API密钥"

/-- `getNextApiKey` as a function of the mutable `apiKeyIndexRef`: return
the key at the current index and advance the index modulo the key count.
An out-of-range index (impossible while the key list is stable) is modelled
with the empty-string default where JS would yield `undefined`. -/
def getNextApiKey (apiKeyStr : String) (idx : Nat) :
    Except String (String × Nat) :=
  let apiKeys := parseApiKeys apiKeyStr
  if apiKeys.length = 0 then
    .error noValidKeyMsg
  else
    .ok (apiKeys.getD idx "", (idx + 1) % apiKeys.length)

/-- Iterate `getNextApiKey` the way successive external calls do, collecting
the keys consumed and the final rotation index. -/
def consumeKeys (apiKeyStr : String) : Nat → Nat → Except String (List String × Nat)
  | 0, idx => .ok ([], idx)
  | m + 1, idx =>
    match getNextApiKey apiKeyStr idx with
    | .error e => .error e
    | .ok (k, idx') =>
      match consumeKeys apiKeyStr m idx' with
      | .error e => .error e
      | .ok (ks, idxF) => .ok (k :: ks, idxF)

/-! ### The translation client (`TranslationContext.translateBatch`)

The direct-pass retry loop and the optional reflection pass, with the
network modelled as an oracle mapping the index of each issued fetch to its
outcome, and the cancellation signal as a predicate on the checkpoints at
which the code inspects `signal.aborted`.  The two `signal?.aborted` checks
that precede each fetch (before and after the rate-limiter wait) are
observationally one checkpoint and are collapsed; the rate limiter itself
adds no observable behaviour to these claims.  Prompt contents do not
influence control flow and are modelled separately by
`buildDirectTemplate`. -/

/-- One parsed value of the model's JSON output.  Fields that the model's
JSON may or may not carry are `Option`s. -/
structure TransItem where
  origin : Option String
  direct : Option String
  reflect : Option String
  free : Option String
deriving DecidableEq

/-- Result of `jsonrepair` + `JSON.parse` on a response body. -/
inductive ContentParse where
  | parseFail (msg : String)
  | parsed (items : List (String × TransItem))
deriving DecidableEq

/-- Outcome of one `fetch` of the chat-completion endpoint. -/
inductive ApiCall where
  | aborted
  | netError (msg : String)
  | httpError (msg : String)
  | ok (tokens : Nat) (content : ContentParse)
deriving DecidableEq

/-- Errors escaping `translateBatch`. `notConfigured` is the up-front
missing-`apiKey` throw, `cancelled` the cancellation error, and
`failed last` the exhausted-retries throw carrying the last underlying
cause (`none` stands for the default translation-failed error). -/
inductive TBError where
  | notConfigured
  | cancelled
  | failed (last : Option String)
deriving DecidableEq

/-- State threaded through the retry loop: the key-rotation index, the
number of fetches issued, the accumulated `usage.total_tokens`, and the
backoff sleeps performed (in ms, in order). -/
structure TBState where
  keyIdx : Nat
  calls : Nat
  tokens : Nat
  waits : List Nat
deriving DecidableEq

/-- Is an `ApiCall` outcome a transient failure for the direct pass
(non-2xx, network error, or a 2xx whose body fails to parse)? -/
def isTransient : ApiCall → Bool
  | .netError _ => true
  | .httpError _ => true
  | .ok _ (.parseFail _) => true
  | .ok _ (.parsed _) => false
  | .aborted => false

/-- The message a transient outcome leaves in `lastError`. -/
def transientMsg : ApiCall → String
  | .netError m => m
  | .httpError m => m
  | .ok _ (.parseFail m) => m
  | _ => ""

/-- Tokens a transient outcome adds (a 2xx response adds its
`usage.total_tokens` before the body is parsed). -/
def transientTok : ApiCall → Nat
  | .ok tk _ => tk
  | _ => 0

/-- The direct-pass loop of `translateBatch`, recursing on the remaining
attempts (`maxRetries - attempt + 1`); `a` is the 1-based attempt number.
Each iteration checks the signal, rotates the API key (a rotation failure is
caught like any transient error), issues a fetch through the oracle, and on
transient failure sleeps `1000 * attempt` ms when attempts remain.  Leaving
the loop with an empty result throws the last error (the `lastError ||
new Error(…)` check after the loop). -/
def directLoop (oracle : Nat → ApiCall) (sig : Nat → Bool) (apiKey : String) :
    Nat → Nat → TBState → Option String →
    Except TBError (List (String × TransItem)) × TBState
  | 0, _, s, last => (.error (.failed last), s)
  | r + 1, a, s, last =>
    if sig a then (.error .cancelled, s)
    else
      match getNextApiKey apiKey s.keyIdx with
      | .error msg =>
        directLoop oracle sig apiKey r (a + 1)
          { s with waits := s.waits ++ if 0 < r then [1000 * a] else [] }
          (some msg)
      | .ok (_key, idx') =>
        let s1 : TBState := { s with keyIdx := idx', calls := s.calls + 1 }
        match oracle s.calls with
        | .aborted => (.error .cancelled, s1)
        | .netError msg =>
          directLoop oracle sig apiKey r (a + 1)
            { s1 with waits := s1.waits ++ if 0 < r then [1000 * a] else [] }
            (some msg)
        | .httpError msg =>
          directLoop oracle sig apiKey r (a + 1)
            { s1 with waits := s1.waits ++ if 0 < r then [1000 * a] else [] }
            (some msg)
        | .ok tk content =>
          let s2 : TBState := { s1 with tokens := s1.tokens + tk }
          match content with
          | .parseFail msg =>
            directLoop oracle sig apiKey r (a + 1)
              { s2 with waits := s2.waits ++ if 0 < r then [1000 * a] else [] }
              (some msg)
          | .parsed items =>
            if items.isEmpty then (.error (.failed last), s2)
            else (.ok items, s2)

/-- The direct pass started the way `translateBatch` starts it: attempt 1,
fresh state, no recorded error. -/
def runDirect (oracle : Nat → ApiCall) (sig : Nat → Bool) (apiKey : String)
    (maxRetries : Nat) : Except TBError (List (String × TransItem)) × TBState :=
  directLoop oracle sig apiKey maxRetries 1 ⟨0, 0, 0, []⟩ none

/-- The remap of a parsed reflection result back into the direct shape:
`origin` is kept and `direct` becomes `free || direct`; no `reflect`/`free`
fields are emitted. -/
def remapReflection (rItems : List (String × TransItem)) :
    List (String × TransItem) :=
  rItems.map fun kv =>
    (kv.1, { origin := kv.2.origin
             direct := jsOrOptStr kv.2.free kv.2.direct
             reflect := none
             free := none })

/-- Full result of a `translateBatch` run: the returned value or error, and
the observable trace. -/
structure TBOut where
  result : Except TBError (List (String × TransItem) × Nat)
  keyIdx : Nat
  calls : Nat
  tokens : Nat
  waits : List Nat

/-- `translateBatch`: the up-front configuration check, the direct-pass
retry loop, and — when reflection is enabled — one reflection call whose
every failure other than cancellation falls back to the direct result.
`sigR` is the signal checkpoint inside the reflection block. -/
def translateBatchModel (apiKey : String) (enableReflection : Bool)
    (oracle : Nat → ApiCall) (sigD : Nat → Bool) (sigR : Bool)
    (maxRetries : Nat) : TBOut :=
  if apiKey = "" then ⟨.error .notConfigured, 0, 0, 0, []⟩
  else
    let p := runDirect oracle sigD apiKey maxRetries
    let s := p.2
    match p.1 with
    | .error e => ⟨.error e, s.keyIdx, s.calls, s.tokens, s.waits⟩
    | .ok items =>
      if enableReflection then
        if sigR then ⟨.error .cancelled, s.keyIdx, s.calls, s.tokens, s.waits⟩
        else
          match getNextApiKey apiKey s.keyIdx with
          | .error _ =>
            ⟨.ok (items, s.tokens), s.keyIdx, s.calls, s.tokens, s.waits⟩
          | .ok (_key, idx') =>
            let s1 : TBState := { s with keyIdx := idx', calls := s.calls + 1 }
            match oracle s.calls with
            | .aborted =>
              ⟨.error .cancelled, s1.keyIdx, s1.calls, s1.tokens, s1.waits⟩
            | .netError _ =>
              ⟨.ok (items, s1.tokens), s1.keyIdx, s1.calls, s1.tokens, s1.waits⟩
            | .httpError _ =>
              ⟨.ok (items, s1.tokens), s1.keyIdx, s1.calls, s1.tokens, s1.waits⟩
            | .ok tk content =>
              let s2 : TBState := { s1 with tokens := s1.tokens + tk }
              match content with
              | .parseFail _ =>
                ⟨.ok (items, s2.tokens), s2.keyIdx, s2.calls, s2.tokens,
                  s2.waits⟩
              | .parsed rItems =>
                ⟨.ok (remapReflection rItems, s2.tokens), s2.keyIdx, s2.calls,
                  s2.tokens, s2.waits⟩
      else ⟨.ok (items, s.tokens), s.keyIdx, s.calls, s.tokens, s.waits⟩

/-! ### The batch orchestrator (`TranslationControls.onStartTranslation`)

The batch-planning phase is a pure function of the entries snapshot captured
by the component's closure, the configuration and the terms list.  The run
itself is the exact sequence of DataManager operations the handler performs,
with `translateBatch` mocked by a per-batch response and batch completions
serialised in dispatch order (exact for `threadCount = 1`, the configuration
of the claimed scenario).

Two closure effects of the source are modelled faithfully:

* `entries` (and the `getActualProgress` helper reading it) is the snapshot
  captured when the handler was created; the store updates during the run
  replace entry objects immutably elsewhere, so this snapshot never changes;
* the `updateEntry` calls go through the subtitle context to
  `updateTaskSubtitleEntryInMemory` under the **file's** original task id
  (`file.currentTaskId`), not the task id freshly created by the handler. -/

/-- The configuration fields the orchestrator reads. -/
structure OrchConfig where
  batchSize : Nat
  contextBefore : Nat
  contextAfter : Nat
  threadCount : Nat
deriving DecidableEq

/-- `Math.ceil(n / b)` for natural `n`, `b ≥ 1`. -/
def jsCeilDiv (n b : Nat) : Nat :=
  (n + b - 1) / b

/-- `totalBatches = Math.ceil(entries.length / batchSize)`. -/
def totalBatchesOf (entries : List SubtitleEntry) (batchSize : Nat) : Nat :=
  jsCeilDiv entries.length batchSize

/-- `startBatchIndex = Math.floor(initialCompleted / batchSize)`, with the
initial completed count taken from the entries snapshot. -/
def startBatchIndexOf (entries : List SubtitleEntry) (batchSize : Nat) : Nat :=
  countTranslated entries / batchSize

/-- The batch indices the planning loop iterates over:
`startBatchIndex, …, totalBatches - 1`. -/
def consideredBatchIndices (entries : List SubtitleEntry) (batchSize : Nat) :
    List Nat :=
  List.range' (startBatchIndexOf entries batchSize)
    (totalBatchesOf entries batchSize - startBatchIndexOf entries batchSize)

/-- `entries.slice(a, b)` for `a ≤ b`. -/
def jsSlice (entries : List SubtitleEntry) (a b : Nat) : List SubtitleEntry :=
  (entries.drop a).take (b - a)

/-- One element of `allBatches`. -/
structure PlannedBatch where
  batchIndex : Nat
  untranslatedEntries : List SubtitleEntry
  textsToTranslate : List String
  contextBeforeTexts : String
  contextAfterTexts : String
  termsText : String
deriving DecidableEq

/-- The body of the planning loop for one batch index: slice the batch,
keep its untranslated entries, skip the batch if none remain, otherwise
collect its context windows and relevant terms. -/
def mkPlannedBatch (entries : List SubtitleEntry) (terms : List Term)
    (cfg : OrchConfig) (batchIndex : Nat) : Option PlannedBatch :=
  let startIdx := batchIndex * cfg.batchSize
  let endIdx := min (startIdx + cfg.batchSize) entries.length
  let batchEntries := jsSlice entries startIdx endIdx
  let untranslatedEntries := batchEntries.filter isUntranslated
  if untranslatedEntries.isEmpty then none
  else
    let contextBeforeTexts :=
      jsJoin '\n' ((jsSlice entries (startIdx - cfg.contextBefore) startIdx).map
        fun e => e.text)
    let contextAfterTexts :=
      jsJoin '\n' ((jsSlice entries endIdx
        (min entries.length (endIdx + cfg.contextAfter))).map fun e => e.text)
    let batchText := jsJoin ' ' (untranslatedEntries.map fun e => e.text)
    let relevantTerms :=
      getRelevantTerms terms batchText contextBeforeTexts contextAfterTexts
    let termsText :=
      jsJoin '\n' (relevantTerms.map fun t =>
        t.original ++ " -> " ++ t.translation)
    some { batchIndex := batchIndex
           untranslatedEntries := untranslatedEntries
           textsToTranslate := untranslatedEntries.map fun e => e.text
           contextBeforeTexts := contextBeforeTexts
           contextAfterTexts := contextAfterTexts
           termsText := termsText }

/-- `allBatches`: the planning loop from `startBatchIndex` to
`totalBatches - 1`, skipping fully-translated batches.  Each element of the
result triggers exactly one `translateBatch` dispatch (hence at least one
network call) in the run. -/
def planBatches (entries : List SubtitleEntry) (terms : List Term)
    (cfg : OrchConfig) : List PlannedBatch :=
  (consideredBatchIndices entries cfg.batchSize).filterMap
    (mkPlannedBatch entries terms cfg)

/-- The store effect of `TranslationContext.updateProgress`: merge
`completed`/`total`/`status` (and `tokens` only when supplied) into the
task's progress, in memory.  The orchestrator always passes the task id
explicitly. -/
def updateProgressOp (st : DMState) (taskId : String) (current total : Nat)
    (phaseCompleted : Bool) (newTokens : Option Nat) : DMState :=
  updateTaskTranslationProgressInMemory st taskId
    { completed := some current
      total := some total
      tokens := newTokens
      status := some (if phaseCompleted then .completed else .translating) }

/-- The store effect of `TranslationContext.completeTranslation`: read the
task's own token total, mark it completed in memory, then (after the 200 ms
delay) run the persisting variant with the same update. -/
def completeTranslationOp (st : DMState) (taskId : String) : DMState :=
  match st.tasks.find? (fun t => t.taskId == taskId) with
  | none => st
  | some task =>
    let taskTokens := task.translation_progress.tokens
    let u : ProgressUpdate :=
      { completed := none, total := none, tokens := some taskTokens,
        status := some .completed }
    let st1 := updateTaskTranslationProgressInMemory st taskId u
    updateTaskTranslationProgress st1 taskId u

/-- The `batchUpdates` array built from one `translateBatch` result: for
each `[key, value]` pair, `parseInt(key) - 1` indexes the batch's
untranslated entries (out-of-range or non-numeric keys index `undefined`
and are skipped), and only values with a truthy `direct` are kept. -/
def mkBatchUpdates (untranslated : List SubtitleEntry)
    (translations : List (String × TransItem)) : List EntryUpdate :=
  translations.filterMap fun kv =>
    match jsParseIntNat kv.1 with
    | some 0 => none
    | some (n + 1) =>
      match untranslated.get? n, kv.2.direct with
      | some entry, some d =>
        if d = "" then none
        else some { id := entry.id, text := entry.text,
                    translatedText := some d }
      | _, _ => none
    | none => none

/-- The handler's per-batch step: on a failed `translateBatch` (`none`) the
error is toasted and the store is untouched; on success the updates are
written through `batchUpdateTaskSubtitleEntries` (under the run's task id)
and `updateTaskSubtitleEntryInMemory` (under the file's task id), the
running completed count grows by the number of updates, and the real-time
progress is pushed when any update was made. -/
def processBatch (taskId fileTaskId : String) (total : Nat)
    (batch : PlannedBatch)
    (resp : Option (List (String × TransItem) × Nat))
    (acc : Nat × DMState) : Nat × DMState :=
  match resp with
  | none => acc
  | some (translations, _tokensUsed) =>
    let c := acc.1
    let st := acc.2
    let batchUpdates := mkBatchUpdates batch.untranslatedEntries translations
    let c1 := c + batchUpdates.length
    if batchUpdates.isEmpty then (c1, st)
    else
      let stA := batchUpdateTaskSubtitleEntries st taskId batchUpdates
      let stB := batchUpdates.foldl
        (fun s u => updateTaskSubtitleEntryInMemory s fileTaskId u.id u.text
          u.translatedText) stA
      (c1, updateProgressOp stB taskId c1 total false none)

/-- The store-level trace of one `onStartTranslation` run over a mocked
`translateBatch`.  `entries0` is the entries snapshot captured by the
handler's closure; `responses i` is the mocked outcome of the `i`-th
dispatched batch (`none` = the batch failed after its internal retries).
The sequence is: create the task, push the initial progress, plan and
process the batches, push the final progress recomputed **from the stale
snapshot**, complete the translation, and append the history entry when the
task ended with at least one translated entry. -/
def runOnStartTranslation (st0 : DMState) (entries0 : List SubtitleEntry)
    (filename taskId fileTaskId : String) (terms : List Term)
    (cfg : OrchConfig) (responses : Nat → Option (List (String × TransItem) × Nat))
    (now : Nat) : DMState :=
  let n := entries0.length
  let st1 := createNewTask st0 taskId filename entries0 0
  let initialCompleted := countTranslated entries0
  let st2 := updateProgressOp st1 taskId initialCompleted n false none
  let batches := planBatches entries0 terms cfg
  let st3 := (batches.enum.foldl
    (fun acc p => processBatch taskId fileTaskId n p.2 (responses p.1) acc)
    (initialCompleted, st2)).2
  let finalCompleted := countTranslated entries0
  let st4 := updateProgressOp st3 taskId finalCompleted n true none
  let st5 := completeTranslationOp st4 taskId
  match st5.tasks.find? (fun t => t.taskId == taskId) with
  | none => st5
  | some t =>
    let finalTokens := t.translation_progress.tokens
    let actualCompleted := countTranslated t.subtitle_entries
    if actualCompleted > 0 then
      addHistoryEntry st5
        { taskId := taskId
          filename := filename
          completedCount := actualCompleted
          totalTokens := finalTokens
          current_translation_task :=
            { taskId := t.taskId
              subtitle_entries := t.subtitle_entries
              subtitle_filename := t.subtitle_filename
              translation_progress := t.translation_progress } } now
    else st5

/-! ### Specification predicates and proof scaffolding -/

/-- The spec's progress invariant for one task: the stored `completed`
equals the number of entries whose `translatedText` is non-empty after
trimming. -/
def taskInv (t : SingleTask) : Prop :=
  t.translation_progress.completed = countTranslated t.subtitle_entries

/-- The history-mutating operations of the store. -/
inductive HistOp where
  | add (e : HistoryEntryInput) (now : Nat)
  | del (taskId : String)
  | clear
deriving DecidableEq

/-- Interpret one history operation on the store. -/
def applyHistOp (st : DMState) : HistOp → DMState
  | .add e now => addHistoryEntry st e now
  | .del taskId => deleteHistoryEntry st taskId
  | .clear => clearHistory st

/-- The task ids of the in-memory history entries, in order. -/
def historyKeys (st : DMState) : List String :=
  st.history.map fun h => h.taskId

/-- Total `usage.total_tokens` contributed by a run of transient outcomes
(2xx responses whose bodies fail to parse still contribute). -/
def sumTransientTok (errs : List ApiCall) : Nat :=
  (errs.map transientTok).sum

/-- The `lastError` value after a run of transient outcomes. -/
def lastErrAfter (errs : List ApiCall) (last : Option String) : Option String :=
  match errs.getLast? with
  | some e => some (transientMsg e)
  | none => last

/-- A network oracle reading its outcomes off a list (out-of-range fetches
get a network error; the claims never reach them). -/
def oracleOfList (l : List ApiCall) : Nat → ApiCall :=
  fun i => l.getD i (.netError "")

/-- A cancellation signal that never fires. -/
def noSig : Nat → Bool :=
  fun _ => false

/-- A cancellation signal that has fired by the `j`-th checkpoint. -/
def sigFrom (j : Nat) : Nat → Bool :=
  fun a => decide (j ≤ a)

/-- A small concrete store used by the concrete instances below: one task
`t1` holding a single untranslated entry. -/
def demoStore : DMState :=
  ⟨[⟨"t1", [⟨1, "00:00:01", "00:00:02", "Hi", none⟩], "f.srt",
      ⟨0, 1, 0, .idle⟩, 0⟩], [], [], []⟩

/-- The task of `demoStore` after its entry is translated in memory. -/
def demoUpdatedTask : SingleTask :=
  ⟨"t1", [⟨1, "00:00:01", "00:00:02", "Hi", some ("你好")⟩], "f.srt",
    ⟨1, 1, 0, .idle⟩, 0⟩

/-- A history input for the task id `t1`. -/
def demoHistInput : HistoryEntryInput :=
  ⟨"t1", "f.srt", 1, 10, ⟨"t1", [], "f.srt", ⟨1, 1, 10, .completed⟩⟩⟩

/-- A store whose history already holds an entry for `t1`. -/
def demoHistStore : DMState :=
  ⟨[], [mkHistoryEntry demoHistInput 1], [], []⟩

/-- Three untranslated entries. -/
def demoEntries3 : List SubtitleEntry :=
  [⟨1, "s", "e", "a", none⟩, ⟨2, "s", "e", "b", none⟩,
   ⟨3, "s", "e", "c", none⟩]

/-- The same three entries, all translated. -/
def demoEntries3Done : List SubtitleEntry :=
  [⟨1, "s", "e", "a", some ("x")⟩, ⟨2, "s", "e", "b", some ("y")⟩,
   ⟨3, "s", "e", "c", some ("z")⟩]

/-- A parsed direct-pass item for the concrete reflection-fallback run. -/
def demoDirectItem : TransItem :=
  ⟨some ("Hello"), some ("你好"), none, none⟩

/-- An oracle whose first fetch succeeds with one parsed item and ten
tokens and whose second fetch (the reflection call) returns non-2xx. -/
def demoReflectOracle : Nat → ApiCall :=
  fun n =>
    if n = 0 then .ok 10 (.parsed [(("1" : String), demoDirectItem)])
    else .httpError ("HTTP 500")

/-- The entries of the spec's two-entry scenario. -/
def demoScenarioEntries : List SubtitleEntry :=
  [⟨1, "00:00:01,000", "00:00:02,000", "Hello", none⟩,
   ⟨2, "00:00:03,000", "00:00:04,000", "World", none⟩]

/-- The mocked `translateBatch` outcome of the scenario: one batch whose
response translates both lines and reports 42 total tokens. -/
def demoScenarioResponses : Nat → Option (List (String × TransItem) × Nat) :=
  fun i =>
    if i = 0 then
      some ([(("1" : String), ⟨some ("Hello"), some ("你好"), none, none⟩),
             (("2" : String), ⟨some ("World"), some ("世界"), none, none⟩)],
        42)
    else none

/-! ## Theorems -/

/-! ### Claim C9: terminology selection -/

/-- Fusion of the map / filter / map pipeline inside `getRelevantTerms`. -/
theorem map_filter_map_terms (l : List Term) (g : Term → List Char)
    (q : Term → List Char → Bool) :
    ((l.map fun t => (t, g t)).filter fun tc => q tc.1 tc.2).map
      (fun tc => ({ original := tc.1.original,
                    translation := tc.1.translation } : Term)) =
      l.filter fun t => q t (g t) := by
  induction l with
  | nil => rfl
  | cons t ts ih =>
    by_cases h : q t (g t) = true
    · simp [List.filter_cons, h, ih]
    · simp only [Bool.not_eq_true] at h
      simp [List.filter_cons, h, ih]

/-- `getRelevantTerms` is literally a filter of the terms list. -/
theorem getRelevantTerms_eq_filter (terms : List Term)
    (text cb ca : String) :
    getRelevantTerms terms text cb ca =
      terms.filter fun t =>
        !(cleanChars t.original.data).isEmpty &&
          includesChars (cleanChars (cb ++ " " ++ text ++ " " ++ ca).data)
            (cleanChars t.original.data) := by
  unfold getRelevantTerms
  split
  · next h =>
    have : terms = [] := List.length_eq_zero.mp h
    simp [this]
  · exact map_filter_map_terms terms (fun t => cleanChars t.original.data)
      (fun _ c => !c.isEmpty &&
        includesChars (cleanChars (cb ++ " " ++ text ++ " " ++ ca).data) c)

/-- Claim C9: for every query text and term list, `getRelevantTerms`
returns a subsequence of the term list (original order, unmodified pairs),
and a term whose normalised original is empty — e.g. an original with no
letters or digits — is never selected. -/
theorem c9_relevant_terms (terms : List Term) (text cb ca : String) :
    (getRelevantTerms terms text cb ca).Sublist terms ∧
    ∀ t ∈ getRelevantTerms terms text cb ca,
      cleanChars t.original.data ≠ [] := by
  have he := getRelevantTerms_eq_filter terms text cb ca
  constructor
  · rw [he]; exact List.filter_sublist _
  · intro t ht
    rw [he] at ht
    have hp := List.of_mem_filter ht
    have h1 : !(cleanChars t.original.data).isEmpty := by
      exact (Bool.and_eq_true _ _ |>.mp hp).1
    simpa [List.isEmpty_iff] using h1

/-- Concrete instance of claim C9's membership clause. -/
theorem c9_relevant_terms_witness :
    (getRelevantTerms [⟨"World", "X"⟩] ("say World now") ("") ("")).Sublist
        [⟨"World", "X"⟩] ∧
    cleanChars (("World" : String)).data ≠ [] :=
  ⟨(c9_relevant_terms [⟨"World", "X"⟩] ("say World now") ("") ("")).1,
   (c9_relevant_terms [⟨"World", "X"⟩] ("say World now") ("") ("")).2
     ⟨"World", "X"⟩ (by decide)⟩

/-! ### Claim C7: the direct prompt's numbered JSON template -/

/-- Splitting a separator-free word yields the singleton. -/
theorem splitChars_of_no_sep (sep : Char) (l : List Char) (h : sep ∉ l) :
    splitChars sep l = [l] := by
  induction l with
  | nil => rfl
  | cons c cs ih =>
    have hc : ¬ c = sep := fun e => h (e ▸ List.mem_cons_self c cs)
    have hcs : sep ∉ cs := fun hm => h (List.mem_cons_of_mem _ hm)
    simp [splitChars, hc, ih hcs]

/-- Splitting peels off a leading separator-free word. -/
theorem splitChars_append_sep (sep : Char) (l rest : List Char)
    (h : sep ∉ l) :
    splitChars sep (l ++ sep :: rest) = l :: splitChars sep rest := by
  induction l with
  | nil => simp [splitChars]
  | cons c cs ih =>
    have hc : ¬ c = sep := fun e => h (e ▸ List.mem_cons_self c cs)
    have hcs : sep ∉ cs := fun hm => h (List.mem_cons_of_mem _ hm)
    simp [splitChars, hc, ih hcs]

/-- `split` undoes `join` on a non-empty list of separator-free lines. -/
theorem splitChars_joinChars (sep : Char) (ls : List (List Char))
    (hne : ls ≠ []) (h : ∀ l ∈ ls, sep ∉ l) :
    splitChars sep (joinChars sep ls) = ls := by
  induction ls with
  | nil => exact absurd rfl hne
  | cons l ls ih =>
    cases ls with
    | nil =>
      simpa [joinChars] using
        splitChars_of_no_sep sep l (h l (List.mem_cons_self _ _))
    | cons l2 ls2 =>
      have hstep : joinChars sep (l :: l2 :: ls2) =
          l ++ sep :: joinChars sep (l2 :: ls2) := rfl
      rw [hstep,
        splitChars_append_sep sep l _ (h l (List.mem_cons_self _ _)),
        ih (by simp) (fun x hx => h x (List.mem_cons_of_mem _ hx))]

/-- Claim C7: for every non-empty list of `n` newline-free source lines,
the JSON template embedded by the direct prompt builder has keys exactly
`"1"` … `"n"` in 1-based line order, with `origin` the corresponding line
and `direct` empty. -/
theorem c7_direct_template (ls : List (List Char)) (hne : ls ≠ [])
    (hnl : ∀ l ∈ ls, '\n' ∉ l) :
    ((buildDirectTemplate (joinChars '\n' ls)).map Prod.fst =
        (List.range ls.length).map fun i => toString (i + 1)) ∧
    (buildDirectTemplate (joinChars '\n' ls)).length = ls.length ∧
    ∀ i : Fin ls.length,
      (buildDirectTemplate (joinChars '\n' ls))[i.1]? =
        some (toString (i.1 + 1), ⟨ls.get i, []⟩) := by
  unfold buildDirectTemplate
  rw [splitChars_joinChars _ _ hne hnl]
  refine ⟨?_, by simp, ?_⟩
  · rw [List.map_map]
    have : (Prod.fst ∘ fun p : Nat × List Char =>
        (toString (p.1 + 1), ({ origin := p.2, direct := [] } : TemplateItem))) =
        (fun i : Nat => toString (i + 1)) ∘ Prod.fst := rfl
    rw [this, ← List.map_map, List.enum_map_fst]
  · intro i
    rw [List.getElem?_map, List.getElem?_enum]
    simp [List.getElem?_eq_getElem i.2, List.get_eq_getElem]

/-- Concrete instance of claim C7 at the source lines `a`, `b`, `c`. -/
theorem c7_direct_template_witness :
    ((buildDirectTemplate (joinChars '\n' [['a'], ['b'], ['c']])).map
        Prod.fst = (List.range 3).map fun i => toString (i + 1)) ∧
    (buildDirectTemplate (joinChars '\n' [['a'], ['b'], ['c']]))[1]? =
      some (toString 2, ⟨['b'], []⟩) :=
  ⟨(c7_direct_template [['a'], ['b'], ['c']] (by decide) (by decide)).1,
   (c7_direct_template [['a'], ['b'], ['c']] (by decide) (by decide)).2.2
     ⟨1, by decide⟩⟩

/-! ### Claim C8: store mutators are no-ops on a missing task id -/

/-- Claim C8: when no task carries the given id,
`updateTaskSubtitleEntryInMemory`, `updateTaskTranslationProgressInMemory`
and `completeTask` leave the entire store — every task, every progress
record, in memory and durable — unchanged (and, being total functions, they
raise nothing). -/
theorem c8_missing_task_is_noop (st : DMState) (taskId : String)
    (entryId : Nat) (text : String) (tt : Option String)
    (u : ProgressUpdate) (finalTokens : Nat)
    (h : ∀ t ∈ st.tasks, t.taskId ≠ taskId) :
    updateTaskSubtitleEntryInMemory st taskId entryId text tt = st ∧
    updateTaskTranslationProgressInMemory st taskId u = st ∧
    completeTask st taskId finalTokens = st := by
  have hf : st.tasks.find? (fun t => t.taskId == taskId) = none := by
    rw [List.find?_eq_none]
    intro t ht
    simpa using h t ht
  refine ⟨?_, ?_, ?_⟩ <;>
    simp [updateTaskSubtitleEntryInMemory,
      updateTaskTranslationProgressInMemory, completeTask, hf]

/-- Concrete instance of claim C8: a one-task store is untouched by
mutations aimed at an absent task id. -/
theorem c8_missing_task_is_noop_witness :
    updateTaskSubtitleEntryInMemory demoStore ("missing") 1 ("x") none =
        demoStore ∧
    updateTaskTranslationProgressInMemory demoStore ("missing")
        ⟨some 7, none, none, none⟩ = demoStore ∧
    completeTask demoStore ("missing") 99 = demoStore :=
  c8_missing_task_is_noop demoStore ("missing") 1 ("x") none
    ⟨some 7, none, none, none⟩ 99 (by decide)

/-! ### Claim C3: the `completed` invariant -/

/-- Claim C3 counterexample: `updateTaskTranslationProgressInMemory` merges
the supplied `completed` verbatim, so a progress update can leave
`completed = 1` on a task none of whose entries is translated. -/
theorem c3_counterexample :
    (updateTaskTranslationProgressInMemory demoStore ("t1")
        ⟨some 1, none, none, none⟩).tasks.map
      (fun t => (t.translation_progress.completed,
        countTranslated t.subtitle_entries)) = [(1, 0)] := by
  decide

/-- Claim C3 (amended): the entry-updating operations
(`updateTaskSubtitleEntryInMemory`, `batchUpdateTaskSubtitleEntries`) and
`completeTask` recompute `completed` from the entries, so every task they
produce either was already in the store or satisfies the invariant; the
progress-merging operations give no such guarantee (see the
counterexample). -/
theorem c3_entry_ops_recompute (st : DMState) (taskId : String)
    (entryId : Nat) (text : String) (tt : Option String)
    (updates : List EntryUpdate) (finalTokens : Nat) :
    (∀ t ∈ (updateTaskSubtitleEntryInMemory st taskId entryId text tt).tasks,
        t ∈ st.tasks ∨ taskInv t) ∧
    (∀ t ∈ (batchUpdateTaskSubtitleEntries st taskId updates).tasks,
        t ∈ st.tasks ∨ taskInv t) ∧
    (∀ t ∈ (completeTask st taskId finalTokens).tasks,
        t ∈ st.tasks ∨ taskInv t) := by
  refine ⟨?_, ?_, ?_⟩
  · intro t ht
    unfold updateTaskSubtitleEntryInMemory at ht
    rcases hf : st.tasks.find? (fun t => t.taskId == taskId) with _ | task
    · rw [hf] at ht
      exact Or.inl ht
    · rw [hf] at ht
      simp only [replaceTask] at ht
      rcases hi : st.tasks.findIdx? (fun t => t.taskId == taskId) with _ | i
      · rw [hi] at ht
        exact Or.inl ht
      · rw [hi] at ht
        rcases List.mem_or_eq_of_mem_set ht with hm | he
        · exact Or.inl hm
        · subst he
          exact Or.inr rfl
  · intro t ht
    unfold batchUpdateTaskSubtitleEntries at ht
    rcases hf : st.tasks.find? (fun t => t.taskId == taskId) with _ | task
    · rw [hf] at ht
      exact Or.inl ht
    · rw [hf] at ht
      simp only [replaceTask] at ht
      rcases hi : st.tasks.findIdx? (fun t => t.taskId == taskId) with _ | i
      · rw [hi] at ht
        exact Or.inl ht
      · rw [hi] at ht
        rcases List.mem_or_eq_of_mem_set ht with hm | he
        · exact Or.inl hm
        · subst he
          exact Or.inr rfl
  · intro t ht
    unfold completeTask at ht
    rcases hf : st.tasks.find? (fun t => t.taskId == taskId) with _ | task
    · rw [hf] at ht
      exact Or.inl ht
    · rw [hf] at ht
      simp only [replaceTask] at ht
      rcases hi : st.tasks.findIdx? (fun t => t.taskId == taskId) with _ | i
      · rw [hi] at ht
        exact Or.inl ht
      · rw [hi] at ht
        rcases List.mem_or_eq_of_mem_set ht with hm | he
        · exact Or.inl hm
        · subst he
          exact Or.inr rfl

/-- Concrete instance of claim C3 (amended): updating the translated text
of the only entry of `demoStore`'s task yields a task satisfying the
invariant. -/
theorem c3_entry_ops_recompute_witness :
    demoUpdatedTask ∈ demoStore.tasks ∨ taskInv demoUpdatedTask :=
  (c3_entry_ops_recompute demoStore ("t1") 1 ("Hi") (some ("你好")) [] 0).1
    demoUpdatedTask (by decide)

/-! ### Claim C10: `taskId` is a key of the translation history -/

/-- Writing back the element already stored at an index is the identity. -/
theorem set_self_of_getElem? {α : Type _} (l : List α) :
    ∀ (i : Nat) (a : α), l[i]? = some a → l.set i a = l := by
  induction l with
  | nil => intro i a h; simp at h
  | cons x xs ih =>
    intro i a h
    cases i with
    | zero =>
      simp only [List.getElem?_cons_zero, Option.some.injEq] at h
      simp [h]
    | succ n =>
      simp only [List.getElem?_cons_succ] at h
      simp [ih n a h]

/-- `addHistoryEntry` preserves distinctness of the history's task ids. -/
theorem addHistoryEntry_keys_nodup (st : DMState) (e : HistoryEntryInput)
    (now : Nat) (hnd : (historyKeys st).Nodup) :
    (historyKeys (addHistoryEntry st e now)).Nodup := by
  unfold addHistoryEntry historyKeys
  rcases hi : st.history.findIdx? (fun h => h.taskId == e.taskId) with _ | i
  · simp only [hi]
    refine List.Nodup.cons ?_ hnd
    intro hm
    rcases List.mem_map.mp hm with ⟨x, hx, hkey⟩
    have hef := List.findIdx?_eq_none_iff.mp hi x hx
    rw [hkey] at hef
    simp [mkHistoryEntry] at hef
  · simp only [hi]
    rcases List.findIdx?_eq_some_iff_getElem.mp hi with ⟨hlen, hp, _⟩
    have hkey : (st.history[i]).taskId = e.taskId := by
      simpa using hp
    have hmap : (st.history.set i (mkHistoryEntry e now)).map
        (fun h => h.taskId) =
        (st.history.map fun h => h.taskId).set i e.taskId := by
      rw [List.map_set]
      rfl
    rw [hmap]
    have hget : (st.history.map fun h => h.taskId)[i]? = some e.taskId := by
      rw [List.getElem?_map, List.getElem?_eq_getElem hlen]
      simp [hkey]
    rw [set_self_of_getElem? _ i e.taskId hget]
    exact hnd

/-- Every history operation preserves distinctness of the task ids. -/
theorem applyHistOp_keys_nodup (st : DMState) (op : HistOp)
    (hnd : (historyKeys st).Nodup) :
    (historyKeys (applyHistOp st op)).Nodup := by
  cases op with
  | add e now => exact addHistoryEntry_keys_nodup st e now hnd
  | del taskId =>
    refine List.Nodup.sublist ?_ hnd
    exact List.Sublist.map _ (List.filter_sublist _)
  | clear => simp [applyHistOp, clearHistory, historyKeys]

/-- Claim C10: `addHistoryEntry` replaces an existing entry with the same
`taskId` in place (same position, fresh timestamp) rather than adding a
second one, every history operation keeps the task ids distinct, and hence
any sequence of `addHistoryEntry` / `deleteHistoryEntry` / `clearHistory`
operations from the initial store leaves no two entries sharing a
`taskId`. -/
theorem c10_history_taskId_key :
    (∀ (st : DMState) (e : HistoryEntryInput) (now i : Nat),
        st.history.findIdx? (fun h => h.taskId == e.taskId) = some i →
        (addHistoryEntry st e now).history =
          st.history.set i (mkHistoryEntry e now)) ∧
    (∀ (st : DMState) (op : HistOp), (historyKeys st).Nodup →
        (historyKeys (applyHistOp st op)).Nodup) ∧
    (∀ ops : List HistOp,
        (historyKeys (ops.foldl applyHistOp emptyDMState)).Nodup) := by
  refine ⟨?_, applyHistOp_keys_nodup, ?_⟩
  · intro st e now i hi
    simp only [addHistoryEntry, hi]
  · intro ops
    have main : ∀ (ops : List HistOp) (st : DMState),
        (historyKeys st).Nodup →
        (historyKeys (ops.foldl applyHistOp st)).Nodup := by
      intro ops
      induction ops with
      | nil => intro st h; exact h
      | cons op rest ih =>
        intro st h
        exact ih (applyHistOp st op) (applyHistOp_keys_nodup st op h)
    exact main ops emptyDMState (by simp [emptyDMState, historyKeys])

/-- Concrete instance of claim C10: re-adding a history entry for the task
id `t1` replaces the stored entry in place, and a concrete operation
sequence keeps the keys distinct. -/
theorem c10_history_taskId_key_witness :
    (addHistoryEntry demoHistStore demoHistInput 5).history =
      demoHistStore.history.set 0 (mkHistoryEntry demoHistInput 5) ∧
    (historyKeys ([HistOp.add demoHistInput 1, HistOp.add demoHistInput 2,
        HistOp.del ("zz")].foldl applyHistOp emptyDMState)).Nodup :=
  ⟨c10_history_taskId_key.1 demoHistStore demoHistInput 5 0 (by decide),
   c10_history_taskId_key.2.2
     [HistOp.add demoHistInput 1, HistOp.add demoHistInput 2,
       HistOp.del ("zz")]⟩

/-! ### Claim C1: batch planning of the orchestrator -/

/-- The two untranslated/translated tests of the sources are
complementary. -/
theorem isUntranslated_eq_not_isTranslated (e : SubtitleEntry) :
    isUntranslated e = !isTranslated e := by
  unfold isUntranslated isTranslated
  cases e.translatedText with
  | none => rfl
  | some s => cases hs : s == "" <;> cases ht : jsTrim s == "" <;> simp [hs, ht]

/-- `(n + b - 1) / b` is the ceiling of `n / b`: the least batch count whose
batches of size `b` cover `n` entries. -/
theorem jsCeilDiv_spec (n b : Nat) (hb : 1 ≤ b) :
    n ≤ b * jsCeilDiv n b ∧ b * jsCeilDiv n b < n + b := by
  have h1 := Nat.div_add_mod (n + b - 1) b
  have h2 : (n + b - 1) % b < b := Nat.mod_lt _ hb
  unfold jsCeilDiv
  omega

/-- Claim C1 (amended): with `B ≥ 1`, the computed batch count is exactly
`⌈N / B⌉`; when no entry is already translated the planning loop considers
exactly that many batch indices; no dispatched batch contains an entry whose
`translatedText` is non-empty **after trimming**; and when every entry is
translated in that sense, no batch is dispatched, so the run issues zero
network calls. -/
theorem c1_batch_planning (entries : List SubtitleEntry) (terms : List Term)
    (cfg : OrchConfig) (hb : 1 ≤ cfg.batchSize) :
    (entries.length ≤ cfg.batchSize * totalBatchesOf entries cfg.batchSize ∧
      cfg.batchSize * totalBatchesOf entries cfg.batchSize <
        entries.length + cfg.batchSize) ∧
    ((∀ e ∈ entries, isTranslated e = false) →
      (consideredBatchIndices entries cfg.batchSize).length =
        totalBatchesOf entries cfg.batchSize) ∧
    (∀ b ∈ planBatches entries terms cfg, ∀ e ∈ b.untranslatedEntries,
      isTranslated e = false) ∧
    ((∀ e ∈ entries, isTranslated e = true) →
      planBatches entries terms cfg = []) := by
  refine ⟨jsCeilDiv_spec entries.length cfg.batchSize hb, ?_, ?_, ?_⟩
  · intro hall
    have hc : countTranslated entries = 0 := by
      unfold countTranslated
      rw [List.filter_eq_nil_iff.mpr (fun e he => by simp [hall e he])]
      rfl
    unfold consideredBatchIndices startBatchIndexOf
    rw [hc]
    simp [Nat.zero_div]
  · intro b hb2 e he
    rcases List.mem_filterMap.mp hb2 with ⟨i, _, hmk⟩
    simp only [mkPlannedBatch] at hmk
    split at hmk
    · exact absurd hmk (by simp)
    · have hfield : b.untranslatedEntries =
          (jsSlice entries (i * cfg.batchSize)
            (min (i * cfg.batchSize + cfg.batchSize) entries.length)).filter
            isUntranslated := by
        have := Option.some.inj hmk
        rw [← this]
      rw [hfield] at he
      have hu := List.of_mem_filter he
      rw [isUntranslated_eq_not_isTranslated] at hu
      simpa using hu
  · intro hall
    unfold planBatches
    rw [List.filterMap_eq_nil_iff]
    intro i _
    unfold mkPlannedBatch
    have hempty : ((jsSlice entries (i * cfg.batchSize)
        (min (i * cfg.batchSize + cfg.batchSize) entries.length)).filter
        isUntranslated) = [] := by
      apply List.filter_eq_nil_iff.mpr
      intro e he
      have hmem : e ∈ entries := by
        unfold jsSlice at he
        exact ((List.take_sublist _ _).trans (List.drop_sublist _ _)).mem he
      rw [isUntranslated_eq_not_isTranslated, hall e hmem]
      simp
    simp [hempty]

/-- Claim C1 counterexample: an entry whose `translatedText` is the
non-empty string made of one space is re-dispatched; a task all of whose
entries carry non-empty `translatedText` can still dispatch a batch (and
hence issue network calls). -/
theorem c1_counterexample :
    (∀ x ∈ [(⟨1, "s", "e", "Hi", some (" ")⟩ : SubtitleEntry)],
        x.translatedText ≠ none ∧ x.translatedText ≠ some ("")) ∧
    (planBatches [⟨1, "s", "e", "Hi", some (" ")⟩] [] ⟨1, 2, 2, 1⟩).map
        (fun b => b.textsToTranslate) = [[("Hi" : String)]] := by
  constructor
  · intro x hx
    rcases List.mem_singleton.mp hx with rfl
    exact ⟨by simp, by simp⟩
  · decide

/-- Concrete instance of claim C1 (amended) on a three-entry file with
batch size two. -/
theorem c1_batch_planning_witness :
    ((3 : Nat) ≤ 2 * totalBatchesOf demoEntries3 2 ∧
      2 * totalBatchesOf demoEntries3 2 < 3 + 2) ∧
    (consideredBatchIndices demoEntries3 2).length =
      totalBatchesOf demoEntries3 2 ∧
    planBatches demoEntries3Done [] ⟨2, 2, 2, 1⟩ = [] := by
  have h := c1_batch_planning demoEntries3 [] ⟨2, 2, 2, 1⟩ (by decide)
  have hdone := c1_batch_planning demoEntries3Done [] ⟨2, 2, 2, 1⟩ (by decide)
  exact ⟨h.1, h.2.1 (by decide), hdone.2.2.2 (by decide)⟩

/-! ### Claims C4/C5/C6: the `translateBatch` state machine

Step and trace lemmas about the direct-pass retry loop. -/

/-- A fired signal at an attempt's checkpoint raises cancellation with the
state untouched. -/
theorem directLoop_cancel (oracle : Nat → ApiCall) (sig : Nat → Bool)
    (apiKey : String) (r a : Nat) (s : TBState) (last : Option String)
    (h : sig a = true) :
    directLoop oracle sig apiKey (r + 1) a s last = (.error .cancelled, s) := by
  simp [directLoop, h]

/-- A transient fetch outcome advances to the next attempt, counting the
call, adding any tokens of a 2xx-but-unparseable response, recording the
backoff wait `1000 * attempt` when attempts remain, and remembering the
error. -/
theorem directLoop_transient_step (oracle : Nat → ApiCall) (sig : Nat → Bool)
    (apiKey : String) (r a : Nat) (s : TBState) (last : Option String)
    (e : ApiCall) (hs : sig a = false) (hkey : parseApiKeys apiKey ≠ [])
    (ho : oracle s.calls = e) (ht : isTransient e = true) :
    directLoop oracle sig apiKey (r + 1) a s last =
      directLoop oracle sig apiKey r (a + 1)
        { keyIdx := (s.keyIdx + 1) % (parseApiKeys apiKey).length
          calls := s.calls + 1
          tokens := s.tokens + transientTok e
          waits := s.waits ++ if 0 < r then [1000 * a] else [] }
        (some (transientMsg e)) := by
  have hlen : ¬ (parseApiKeys apiKey).length = 0 := by
    simpa [List.length_eq_zero] using hkey
  cases e with
  | aborted => simp [isTransient] at ht
  | netError msg =>
    simp [directLoop, hs, getNextApiKey, hlen, ho, transientTok, transientMsg]
  | httpError msg =>
    simp [directLoop, hs, getNextApiKey, hlen, ho, transientTok, transientMsg]
  | ok tk content =>
    cases content with
    | parseFail msg =>
      simp [directLoop, hs, getNextApiKey, hlen, ho, transientTok,
        transientMsg]
    | parsed items => simp [isTransient] at ht

/-- A key-rotation failure (no valid key) is caught like a transient error:
no fetch is issued and the loop retries with the configuration-error
message. -/
theorem directLoop_keyfail_step (oracle : Nat → ApiCall) (sig : Nat → Bool)
    (apiKey : String) (r a : Nat) (s : TBState) (last : Option String)
    (hs : sig a = false) (hkey : parseApiKeys apiKey = []) :
    directLoop oracle sig apiKey (r + 1) a s last =
      directLoop oracle sig apiKey r (a + 1)
        { s with waits := s.waits ++ if 0 < r then [1000 * a] else [] }
        (some noValidKeyMsg) := by
  simp [directLoop, hs, getNextApiKey, hkey]

/-- A parsed, non-empty response ends the loop successfully. -/
theorem directLoop_success_step (oracle : Nat → ApiCall) (sig : Nat → Bool)
    (apiKey : String) (r a : Nat) (s : TBState) (last : Option String)
    (items : List (String × TransItem)) (tk : Nat)
    (hs : sig a = false) (hkey : parseApiKeys apiKey ≠ [])
    (ho : oracle s.calls = .ok tk (.parsed items)) (hne : items ≠ []) :
    directLoop oracle sig apiKey (r + 1) a s last =
      (.ok items,
        { keyIdx := (s.keyIdx + 1) % (parseApiKeys apiKey).length
          calls := s.calls + 1
          tokens := s.tokens + tk
          waits := s.waits }) := by
  have hlen : ¬ (parseApiKeys apiKey).length = 0 := by
    simpa [List.length_eq_zero] using hkey
  simp [directLoop, hs, getNextApiKey, hlen, ho,
    List.isEmpty_eq_false.mpr hne]

/-- `lastErrAfter` peels a leading transient error. -/
theorem lastErrAfter_cons (e : ApiCall) (rest : List ApiCall)
    (last : Option String) :
    lastErrAfter rest (some (transientMsg e)) = lastErrAfter (e :: rest) last := by
  cases rest with
  | nil => rfl
  | cons e2 rest2 =>
    obtain ⟨x, hx⟩ : ∃ x, (e2 :: rest2).getLast? = some x :=
      ⟨_, List.getLast?_eq_getLast _ (by simp)⟩
    simp [lastErrAfter, List.getLast?_cons_cons, hx]

/-- Consuming a run of transient outcomes: with more attempts remaining
than failures, the loop advances past them, accumulating one backoff wait
of `1000 * attempt` per failed attempt, one fetch per failure, the tokens
of the unparseable 2xx responses, and the last error message. -/
theorem directLoop_consume (oracle : Nat → ApiCall) (sig : Nat → Bool)
    (apiKey : String) (errs : List ApiCall)
    (ht : ∀ e ∈ errs, isTransient e = true)
    (hkey : parseApiKeys apiKey ≠ []) :
    ∀ (r a : Nat) (s : TBState) (last : Option String), errs.length < r →
      (∀ i, i < errs.length →
        oracle (s.calls + i) = errs.getD i (.netError "")) →
      (∀ k, a ≤ k → k < a + errs.length → sig k = false) →
      s.keyIdx < (parseApiKeys apiKey).length →
      directLoop oracle sig apiKey r a s last =
        directLoop oracle sig apiKey (r - errs.length) (a + errs.length)
          { keyIdx := (s.keyIdx + errs.length) % (parseApiKeys apiKey).length
            calls := s.calls + errs.length
            tokens := s.tokens + sumTransientTok errs
            waits := s.waits ++ (List.range' a errs.length).map
              fun k => 1000 * k }
          (lastErrAfter errs last) := by
  induction errs with
  | nil =>
    intro r a s last _ _ _ hidx
    obtain ⟨ki, ca, tk, ws⟩ := s
    simp only [List.length_nil, Nat.sub_zero, Nat.add_zero, List.range',
      List.map_nil, List.append_nil, sumTransientTok, List.map_nil,
      List.sum_nil, lastErrAfter, List.getLast?_nil]
    rw [Nat.mod_eq_of_lt hidx]
  | cons e rest ih =>
    intro r a s last hlr horacle hsig hidx
    have hpos : (parseApiKeys apiKey).length ≠ 0 := by
      simpa [List.length_eq_zero] using hkey
    cases r with
    | zero => omega
    | succ r0 =>
      have hstep := directLoop_transient_step oracle sig apiKey r0 a s last e
        (hsig a (Nat.le_refl a) (by simp only [List.length_cons]; omega))
        hkey (by simpa using horacle 0 (by simp)) (ht e (by simp))
      have hr0 : 0 < r0 := by
        have := hlr
        simp only [List.length_cons] at this
        omega
      rw [hstep]
      rw [ih (fun x hx => ht x (List.mem_cons_of_mem _ hx)) r0 (a + 1) _
        (some (transientMsg e)) (by simp only [List.length_cons] at hlr; omega)
        (fun i hi => by
          have hh := horacle (i + 1) (by simp only [List.length_cons]; omega)
          rw [show s.calls + 1 + i = s.calls + (i + 1) by omega]
          simpa using hh)
        (fun k hk1 hk2 => hsig k (by omega)
          (by simp only [List.length_cons]; omega))
        (Nat.mod_lt _ (Nat.pos_of_ne_zero hpos))]
      have hkix : ((s.keyIdx + 1) % (parseApiKeys apiKey).length +
          rest.length) % (parseApiKeys apiKey).length =
          (s.keyIdx + (rest.length + 1)) % (parseApiKeys apiKey).length := by
        rw [Nat.mod_add_mod]
        ring_nf
      have hwaits : (s.waits ++ if 0 < r0 then [1000 * a] else []) ++
          (List.range' (a + 1) rest.length).map (fun k => 1000 * k) =
          s.waits ++ (List.range' a (rest.length + 1)).map
            fun k => 1000 * k := by
        rw [if_pos hr0, List.range'_succ]
        simp
      have htok : s.tokens + transientTok e + sumTransientTok rest =
          s.tokens + sumTransientTok (e :: rest) := by
        simp [sumTransientTok]
        omega
      simp only [List.length_cons]
      rw [lastErrAfter_cons e rest last]
      congr 1
      · omega
      · omega
      · rw [← hkix, ← htok, ← hwaits]
        congr 1
        omega

/-- Exhausting the retries: when every one of the remaining attempts fails
transiently, the loop ends with the translation-failed error carrying the
last cause; the final attempt is not followed by a backoff wait. -/
theorem directLoop_exhaust (oracle : Nat → ApiCall) (sig : Nat → Bool)
    (apiKey : String) (errs : List ApiCall)
    (ht : ∀ e ∈ errs, isTransient e = true)
    (hkey : parseApiKeys apiKey ≠ []) :
    ∀ (a : Nat) (s : TBState) (last : Option String), errs ≠ [] →
      (∀ i, i < errs.length →
        oracle (s.calls + i) = errs.getD i (.netError "")) →
      (∀ k, a ≤ k → k < a + errs.length → sig k = false) →
      s.keyIdx < (parseApiKeys apiKey).length →
      directLoop oracle sig apiKey errs.length a s last =
        (.error (.failed (lastErrAfter errs last)),
          { keyIdx := (s.keyIdx + errs.length) % (parseApiKeys apiKey).length
            calls := s.calls + errs.length
            tokens := s.tokens + sumTransientTok errs
            waits := s.waits ++ (List.range' a (errs.length - 1)).map
              fun k => 1000 * k }) := by
  induction errs with
  | nil => intro a s last hne; exact absurd rfl hne
  | cons e rest ih =>
    intro a s last _ horacle hsig hidx
    have hpos : (parseApiKeys apiKey).length ≠ 0 := by
      simpa [List.length_eq_zero] using hkey
    have hstep := directLoop_transient_step oracle sig apiKey rest.length a s
      last e (hsig a (Nat.le_refl a) (by simp only [List.length_cons]; omega))
      hkey (by simpa using horacle 0 (by simp)) (ht e (by simp))
    simp only [List.length_cons]
    rw [hstep]
    cases rest with
    | nil =>
      simp only [List.length_nil, lastErrAfter, List.getLast?_cons,
        List.getLast?_nil, Option.getD_none]
      obtain ⟨ki, ca, tk, ws⟩ := s
      simp [directLoop, sumTransientTok, lastErrAfter]
    | cons e2 rest2 =>
      rw [ih (fun x hx => ht x (List.mem_cons_of_mem _ hx)) (a + 1) _
        (some (transientMsg e)) (by simp)
        (fun i hi => by
          have hh := horacle (i + 1)
            (by simp only [List.length_cons] at hi ⊢; omega)
          rw [show s.calls + 1 + i = s.calls + (i + 1) by omega]
          simpa using hh)
        (fun k hk1 hk2 => hsig k (by omega)
          (by simp only [List.length_cons] at hk2 ⊢; omega))
        (Nat.mod_lt _ (Nat.pos_of_ne_zero hpos))]
      have hkix : ((s.keyIdx + 1) % (parseApiKeys apiKey).length +
          (e2 :: rest2).length) % (parseApiKeys apiKey).length =
          (s.keyIdx + ((e2 :: rest2).length + 1)) %
            (parseApiKeys apiKey).length := by
        rw [Nat.mod_add_mod]
        ring_nf
      have hwaits : (s.waits ++
          if 0 < (e2 :: rest2).length then [1000 * a] else []) ++
          (List.range' (a + 1) ((e2 :: rest2).length - 1)).map
            (fun k => 1000 * k) =
          s.waits ++ (List.range' a ((e2 :: rest2).length + 1 - 1)).map
            fun k => 1000 * k := by
        rw [if_pos (by simp), show (e2 :: rest2).length + 1 - 1 =
          ((e2 :: rest2).length - 1) + 1 by simp, List.range'_succ]
        simp
      have htok : s.tokens + transientTok e +
          sumTransientTok (e2 :: rest2) =
          s.tokens + sumTransientTok (e :: e2 :: rest2) := by
        simp [sumTransientTok]
        omega
      rw [lastErrAfter_cons e (e2 :: rest2) last]
      congr 1
      rw [← hkix, ← htok, ← hwaits]
      simp only [TBState.mk.injEq]
      exact ⟨trivial, by omega, trivial, trivial⟩

/-- With zero valid keys, every attempt fails before any fetch: the loop
runs through all its attempts, backing off after each but the last, and ends
with the configuration-error message as the failure cause — with zero
network calls. -/
theorem directLoop_keyfail_run (oracle : Nat → ApiCall) (sig : Nat → Bool)
    (apiKey : String) (hkey : parseApiKeys apiKey = []) :
    ∀ (r a : Nat) (s : TBState) (last : Option String), 1 ≤ r →
      (∀ k, a ≤ k → sig k = false) →
      directLoop oracle sig apiKey r a s last =
        (.error (.failed (some noValidKeyMsg)),
          { s with waits :=
              s.waits ++ (List.range' a (r - 1)).map (fun k => 1000 * k) }) := by
  intro r
  induction r with
  | zero => intro a s last h; omega
  | succ r0 ih =>
    intro a s last _ hsig
    rw [directLoop_keyfail_step oracle sig apiKey r0 a s last
      (hsig a (Nat.le_refl a)) hkey]
    cases Nat.eq_zero_or_pos r0 with
    | inl h0 =>
      subst h0
      obtain ⟨ki, ca, tk, ws⟩ := s
      simp [directLoop]
    | inr hpos =>
      rw [ih (a + 1) _ (some noValidKeyMsg) hpos (fun k hk => hsig k (by omega))]
      have hw : (s.waits ++ if 0 < r0 then [1000 * a] else []) ++
          (List.range' (a + 1) (r0 - 1)).map (fun k => 1000 * k) =
          s.waits ++ (List.range' a (r0 + 1 - 1)).map fun k => 1000 * k := by
        rw [if_pos hpos, show r0 + 1 - 1 = (r0 - 1) + 1 by omega,
          List.range'_succ]
        simp
      rw [← hw]

/-- Claim C4: in the direct pass of `translateBatch` with the default
`maxRetries = 5`, every transient failure (non-2xx, network error, parse
failure) on attempt `k < 5` is followed by a `k × 1000` ms wait and a
retry; at most five attempts run in total; if the cancellation signal has
fired at a checkpoint the loop raises immediately with no further attempts;
and exhausting the retries raises the translation-failed error carrying the
last underlying cause. -/
theorem c4_direct_retry_policy (apiKey : String) (errs : List ApiCall)
    (items : List (String × TransItem)) (tk j : Nat)
    (hkey : parseApiKeys apiKey ≠ [])
    (ht : ∀ e ∈ errs, isTransient e = true) :
    (errs.length < 5 → items ≠ [] →
      runDirect (oracleOfList (errs ++ [.ok tk (.parsed items)])) noSig
          apiKey 5 =
        (.ok items,
          { keyIdx := (errs.length + 1) % (parseApiKeys apiKey).length
            calls := errs.length + 1
            tokens := sumTransientTok errs + tk
            waits := (List.range' 1 errs.length).map fun k => 1000 * k })) ∧
    (errs.length = 5 → ∀ e, errs.getLast? = some e →
      runDirect (oracleOfList errs) noSig apiKey 5 =
        (.error (.failed (some (transientMsg e))),
          { keyIdx := 5 % (parseApiKeys apiKey).length
            calls := 5
            tokens := sumTransientTok errs
            waits := [1000, 2000, 3000, 4000] })) ∧
    (1 ≤ j → j ≤ 5 → errs.length = j - 1 →
      runDirect (oracleOfList errs) (sigFrom j) apiKey 5 =
        (.error .cancelled,
          { keyIdx := (j - 1) % (parseApiKeys apiKey).length
            calls := j - 1
            tokens := sumTransientTok errs
            waits := (List.range' 1 (j - 1)).map fun k => 1000 * k })) := by
  have hpos : 0 < (parseApiKeys apiKey).length :=
    Nat.pos_of_ne_zero (by simpa [List.length_eq_zero] using hkey)
  refine ⟨?_, ?_, ?_⟩
  · intro hlen hne
    unfold runDirect
    rw [directLoop_consume
      (oracleOfList (errs ++ [ApiCall.ok tk (ContentParse.parsed items)]))
      noSig apiKey errs ht hkey 5 1 ⟨0, 0, 0, []⟩ none hlen
      (fun i hi => by
        simp only [oracleOfList, Nat.zero_add]
        rw [List.getD_append _ _ _ _ hi])
      (fun k _ _ => rfl) hpos]
    obtain ⟨r0, hr0⟩ : ∃ r0, 5 - errs.length = r0 + 1 := ⟨4 - errs.length, by omega⟩
    rw [hr0]
    rw [directLoop_success_step _ _ apiKey r0 (1 + errs.length) _
      (lastErrAfter errs none) items tk rfl hkey
      (by
        show oracleOfList (errs ++ [.ok tk (.parsed items)])
          (0 + errs.length) = _
        simp only [oracleOfList, Nat.zero_add]
        rw [List.getD_append_right _ _ _ _ (Nat.le_refl _)]
        simp) hne]
    simp only [Prod.mk.injEq, TBState.mk.injEq, Nat.zero_add, Nat.add_zero,
      List.nil_append, Nat.mod_add_mod, true_and, and_true, and_self]
  · intro hlen e hlast
    unfold runDirect
    have hex := directLoop_exhaust (oracleOfList errs) noSig apiKey errs ht
      hkey 1 ⟨0, 0, 0, []⟩ none
      (by intro h0; rw [h0] at hlen; simp at hlen)
      (fun i hi => by simp [oracleOfList])
      (fun k _ _ => rfl) hpos
    have hla : lastErrAfter errs none = some (transientMsg e) := by
      simp [lastErrAfter, hlast]
    rw [hla, hlen] at hex
    rw [hex]
    simp only [Prod.mk.injEq, TBState.mk.injEq, Nat.zero_add, Nat.add_zero,
      List.nil_append, true_and, and_true, and_self]
    decide
  · intro hj1 hj5 hlen
    unfold runDirect
    rw [directLoop_consume (oracleOfList errs) (sigFrom j) apiKey errs ht hkey
      5 1 ⟨0, 0, 0, []⟩ none (by omega)
      (fun i hi => by simp [oracleOfList])
      (fun k hk1 hk2 => by
        simp only [sigFrom, decide_eq_false_iff_not]
        omega) hpos]
    obtain ⟨r0, hr0⟩ : ∃ r0, 5 - errs.length = r0 + 1 := ⟨4 - errs.length, by omega⟩
    rw [hr0]
    rw [directLoop_cancel _ _ apiKey r0 (1 + errs.length) _ _
      (by simp only [sigFrom, decide_eq_true_eq]; omega)]
    simp only [Prod.mk.injEq, TBState.mk.injEq, Nat.zero_add, Nat.add_zero,
      List.nil_append, hlen, true_and, and_true, and_self]

/-- Concrete instance of claim C4: one transient failure then success waits
1000 ms and retries once; cancellation before attempt 2 stops after one
attempt. -/
theorem c4_direct_retry_policy_witness :
    runDirect (oracleOfList [.httpError ("boom"),
        .ok 7 (.parsed [(("1" : String), ⟨none, some ("x"), none, none⟩)])])
        noSig ("k") 5 =
      (.ok [(("1" : String), ⟨none, some ("x"), none, none⟩)],
        { keyIdx := (([ApiCall.httpError ("boom")].length + 1)) %
            (parseApiKeys ("k")).length
          calls := [ApiCall.httpError ("boom")].length + 1
          tokens := sumTransientTok [ApiCall.httpError ("boom")] + 7
          waits := (List.range' 1 [ApiCall.httpError ("boom")].length).map
            fun k => 1000 * k }) ∧
    runDirect (oracleOfList [.httpError ("boom")]) (sigFrom 2) ("k") 5 =
      (.error .cancelled,
        { keyIdx := (2 - 1) % (parseApiKeys ("k")).length
          calls := 2 - 1
          tokens := sumTransientTok [ApiCall.httpError ("boom")]
          waits := (List.range' 1 (2 - 1)).map fun k => 1000 * k }) :=
  ⟨(c4_direct_retry_policy ("k") [.httpError ("boom")]
      [(("1" : String), ⟨none, some ("x"), none, none⟩)] 7 2
      (by decide) (by decide)).1 (by decide) (by decide),
   (c4_direct_retry_policy ("k") [.httpError ("boom")]
      [(("1" : String), ⟨none, some ("x"), none, none⟩)] 7 2
      (by decide) (by decide)).2.2 (by decide) (by decide) (by decide)⟩

/-- Claim C5 counterexample: the key string made of a single pipe yields
zero valid keys, and `translateBatch` then performs four backoff waits —
the configuration error is retried like a transient failure, not raised
fatally — though indeed with zero network calls. -/
theorem c5_counterexample :
    parseApiKeys ("|") = [] ∧
    (translateBatchModel ("|") false (fun _ => ApiCall.httpError ("x"))
        noSig false 5).calls = 0 ∧
    (translateBatchModel ("|") false (fun _ => ApiCall.httpError ("x"))
        noSig false 5).waits = [1000, 2000, 3000, 4000] :=
  ⟨by decide, rfl, rfl⟩

/-- Claim C5 (amended): each call consumes the next key of the pipe-split,
trimmed, non-empty key list in round-robin order with a persistent index
wrapping modulo the key count.  When the string yields zero valid keys the
configuration error is raised before any network call; an empty `apiKey`
string fails fast and unretried, but any other zero-key string is caught by
the direct pass's retry loop, backs off `maxRetries - 1` times, and is
re-raised as the failure cause only after the attempts are exhausted —
still with zero network calls. -/
theorem c5_key_rotation (s : String) (ks : List String)
    (hks : parseApiKeys s = ks) :
    (∀ r, (h : r < ks.length) →
      getNextApiKey s r = .ok (ks.get ⟨r, h⟩, (r + 1) % ks.length)) ∧
    (∀ m r, r < ks.length →
      consumeKeys s m r =
        .ok ((List.range m).map (fun i => ks.getD ((r + i) % ks.length) ""),
          (r + m) % ks.length)) ∧
    (ks = [] → ∀ r, getNextApiKey s r = .error noValidKeyMsg) ∧
    (ks = [] → s ≠ "" → ∀ (er : Bool) (oracle : Nat → ApiCall) (sigR : Bool),
      (translateBatchModel s er oracle noSig sigR 5).result =
          .error (.failed (some noValidKeyMsg)) ∧
      (translateBatchModel s er oracle noSig sigR 5).calls = 0 ∧
      (translateBatchModel s er oracle noSig sigR 5).waits =
          [1000, 2000, 3000, 4000]) ∧
    (s = "" → ∀ (er : Bool) (oracle : Nat → ApiCall) (sigD : Nat → Bool)
        (sigR : Bool),
      (translateBatchModel s er oracle sigD sigR 5).result =
          .error .notConfigured ∧
      (translateBatchModel s er oracle sigD sigR 5).calls = 0) := by
  have hget : ∀ r, (h : r < ks.length) →
      getNextApiKey s r = .ok (ks.get ⟨r, h⟩, (r + 1) % ks.length) := by
    intro r h
    have hlen : ¬ ks.length = 0 := by omega
    simp only [getNextApiKey, hks, hlen, if_false, ite_false]
    congr 1
    rw [List.getD_eq_getElem?_getD, List.getElem?_eq_getElem h]
    simp [List.get_eq_getElem]
  refine ⟨hget, ?_, ?_, ?_, ?_⟩
  · intro m
    induction m with
    | zero =>
      intro r hr
      simp [consumeKeys, Nat.mod_eq_of_lt hr]
    | succ m ih =>
      intro r hr
      have hpos : 0 < ks.length := by omega
      rw [consumeKeys, hget r hr]
      simp only [ih ((r + 1) % ks.length) (Nat.mod_lt _ hpos)]
      simp only [Except.ok.injEq, Prod.mk.injEq]
      constructor
      · rw [List.range_succ_eq_map]
        simp only [List.map_cons, List.map_map]
        congr 1
        · rw [Nat.add_zero, Nat.mod_eq_of_lt hr]
          rw [List.getD_eq_getElem?_getD, List.getElem?_eq_getElem hr]
          simp [List.get_eq_getElem]
        · apply List.map_congr_left
          intro i _
          simp only [Function.comp]
          rw [Nat.mod_add_mod, show r + 1 + i = r + i.succ by omega]
      · rw [Nat.mod_add_mod]
        ring_nf
  · intro he r
    simp [getNextApiKey, hks, he]
  · intro he hne er oracle sigR
    have hrun : runDirect oracle noSig s 5 =
        (.error (.failed (some noValidKeyMsg)),
          { keyIdx := 0, calls := 0, tokens := 0,
            waits := [] ++ (List.range' 1 (5 - 1)).map
              (fun k => 1000 * k) }) := by
      unfold runDirect
      exact directLoop_keyfail_run oracle noSig s (by rw [hks, he]) 5 1
        ⟨0, 0, 0, []⟩ none (by omega) (fun k _ => rfl)
    refine ⟨?_, ?_, ?_⟩ <;>
      simp [translateBatchModel, hne, hrun, List.range']
  · intro he er oracle sigD sigR
    subst he
    exact ⟨rfl, rfl⟩

/-- Concrete instance of claim C5 (amended): with keys `a|b` the second
call consumes `b` and wraps; three calls consume `a`, `b`, `a`; with the
zero-key string made of one pipe the run fails with the configuration
message, zero fetches and four backoffs. -/
theorem c5_key_rotation_witness :
    getNextApiKey ("a|b") 1 = .ok (("b" : String), 0) ∧
    consumeKeys ("a|b") 3 0 =
      .ok ([("a" : String), ("b" : String), ("a" : String)], 1) ∧
    (translateBatchModel ("|") false (fun _ => ApiCall.httpError ("x"))
        noSig false 5).result = .error (.failed (some noValidKeyMsg)) :=
  ⟨(c5_key_rotation ("a|b") [("a" : String), ("b" : String)]
      (by decide)).1 1 (by decide),
   (c5_key_rotation ("a|b") [("a" : String), ("b" : String)]
      (by decide)).2.1 3 0 (by decide),
   ((c5_key_rotation ("|") [] (by decide)).2.2.2.1 rfl (by decide) false
      (fun _ => ApiCall.httpError ("x")) false).1⟩

/-! ### Claim C6: reflection fallback on a non-2xx reflection response -/

/-- Claim C6: when the direct pass succeeds, reflection is enabled, and the
reflection HTTP call returns non-2xx, `translateBatch` returns exactly the
direct-pass translations mapping (so in particular no `reflect`/`free`
remap happens) with `tokensUsed` equal to the direct-pass token count only,
and does not raise. -/
theorem c6_reflection_fallback (apiKey : String) (oracle : Nat → ApiCall)
    (sigD : Nat → Bool) (items : List (String × TransItem)) (msg : String)
    (hkey : parseApiKeys apiKey ≠ [])
    (hD : (runDirect oracle sigD apiKey 5).1 = .ok items)
    (hR : oracle (runDirect oracle sigD apiKey 5).2.calls = .httpError msg) :
    (translateBatchModel apiKey true oracle sigD false 5).result =
      .ok (items, (runDirect oracle sigD apiKey 5).2.tokens) ∧
    (translateBatchModel apiKey true oracle sigD false 5).tokens =
      (runDirect oracle sigD apiKey 5).2.tokens := by
  have hne : ¬ apiKey = "" := by
    intro h
    apply hkey
    rw [h]
    rfl
  have hlen : ¬ (parseApiKeys apiKey).length = 0 := by
    simpa [List.length_eq_zero] using hkey
  have hok : getNextApiKey apiKey (runDirect oracle sigD apiKey 5).2.keyIdx =
      .ok ((parseApiKeys apiKey).getD
          (runDirect oracle sigD apiKey 5).2.keyIdx "",
        ((runDirect oracle sigD apiKey 5).2.keyIdx + 1) %
          (parseApiKeys apiKey).length) := by
    simp [getNextApiKey, hlen]
  constructor <;> simp [translateBatchModel, hne, hD, hok, hR]

/-- Concrete instance of claim C6: a successful one-item direct pass worth
ten tokens followed by a non-2xx reflection call returns the direct item
and ten tokens. -/
theorem c6_reflection_fallback_witness :
    (translateBatchModel ("k") true demoReflectOracle noSig false 5).result =
      .ok ([(("1" : String), demoDirectItem)], 10) :=
  (c6_reflection_fallback ("k") demoReflectOracle noSig
    [(("1" : String), demoDirectItem)] ("HTTP 500") (by decide) rfl rfl).1

/-! ### Claim C2: the two-entry scenario run -/

/-- Claim C2 evaluated on the code: on the spec's two-entry scenario
(`batchSize = 2`, `threadCount = 1`, reflection off, the mocked API
returning both translations with 42 total tokens), the run ends with both
entries correctly translated and the status `completed` — but with the
task's progress at `completed = 0` and `tokens = 0`, not the claimed
`completed = 2` and `tokens = 42`: `onStartTranslation` never feeds
`translateBatch`'s `tokensUsed` into a progress update, and its final
progress update recomputes the completed count from the entries snapshot
captured before the run, which the store's immutable updates never
touch. -/
theorem c2_scenario_run :
    (runOnStartTranslation emptyDMState demoScenarioEntries ("demo.srt")
        ("task-1") ("file-task-0") [] ⟨2, 2, 2, 1⟩ demoScenarioResponses
        1000).tasks.map
      (fun t => (t.taskId,
        t.subtitle_entries.map (fun e => e.translatedText),
        t.translation_progress.completed, t.translation_progress.tokens,
        t.translation_progress.status)) =
      [(("task-1" : String), [some ("你好"), some ("世界")], 0, 0,
        TaskStatus.completed)] := by
  decide

end SrtTranslate
